import Mathlib

/-!
# Verification of the rtp-player core (M3U playlist parsing, EPG parsing,
# gap-fill synthesis, seek clamping, navigation, program resolution)

Shallow embedding of the TypeScript sources:

* `src/lib/m3u-parser.ts`   — `parseM3U`
* `src/lib/epg-parser.ts`   — `parseEPG`, `generateFallbackPrograms`
* `src/App.tsx`             — `handleVideoSeek`, `handleChannelNavigate`,
                              the playback-segments effect, `currentVideoProgram`

JavaScript `Date` values are modelled as epoch milliseconds.  A valid date is
`some ms : Option Int`; `none` models an Invalid Date (`NaN` time value).
Comparisons on dates follow the JS relational semantics: any comparison
involving `NaN` is false.
-/

namespace RtpPlayer

/-- JS `a < b` on `Date`/number values (`none` = NaN, all comparisons false). -/
def jsLt (a b : Option Int) : Bool :=
  match a, b with
  | some x, some y => x < y
  | _, _ => false

/-- JS `a <= b` on `Date`/number values (`none` = NaN, all comparisons false). -/
def jsLe (a b : Option Int) : Bool :=
  match a, b with
  | some x, some y => x ≤ y
  | _, _ => false

/-- `EPGProgram` record from `src/types/player.ts` (fields `id`, `title`,
`start`, `end`; the TS field `end` is a Lean keyword, rendered `endTime`). -/
structure EPGProgram where
  id : String
  title : String
  start : Option Int
  endTime : Option Int
  deriving DecidableEq, Repr

/-- `p` covers instant `t`: `p.start <= t && t < p.end` with JS comparison
semantics (the half-open interval `[start, end)`). -/
def inInterval (p : EPGProgram) (t : Int) : Bool :=
  jsLe p.start (some t) && jsLt (some t) p.endTime

/-! ## Gap-fill synthesizer (`generateFallbackPrograms`, epg-parser.ts 71-113) -/

/-- `TWO_HOURS_MS` constant from `generateFallbackPrograms`. -/
def TWO_HOURS_MS : Int := 2 * 60 * 60 * 1000

/-- The overlap test of `generateFallbackPrograms` (epg-parser.ts 93-98):
`existingPrograms.some(p => (p.start <= currentStart && p.end > currentStart)
|| (p.start < currentEnd && p.end >= currentEnd)
|| (p.start >= currentStart && p.end <= currentEnd))`. -/
def hasOverlap (existingPrograms : List EPGProgram) (currentStart currentEnd : Int) : Bool :=
  existingPrograms.any fun p =>
    (jsLe p.start (some currentStart) && jsLt (some currentStart) p.endTime) ||
    (jsLt p.start (some currentEnd) && jsLe (some currentEnd) p.endTime) ||
    (jsLe (some currentStart) p.start && jsLe p.endTime (some currentEnd))

/-- One synthetic fallback block pushed by `generateFallbackPrograms`
(epg-parser.ts 101-106): a 2-hour entry with the placeholder title. -/
def mkFallback (channelId : String) (currentStart : Int) : EPGProgram :=
  { id := "fallback-" ++ channelId ++ "-" ++ toString currentStart
    title := "精彩节目"
    start := some currentStart
    endTime := some (currentStart + TWO_HOURS_MS) }

/-- The `while (currentStart < now)` loop of `generateFallbackPrograms`
(epg-parser.ts 89-110), written with explicit fuel so the recursion is
structural; `fallbackFuel` below supplies enough fuel that the loop always
terminates by the `currentStart < now` test, never by fuel exhaustion
(`fallbackLoop_fuel_irrelevant`). -/
def fallbackLoop (existingPrograms : List EPGProgram) (channelId : String) (now : Int) :
    Nat → Int → List EPGProgram
  | 0, _ => []
  | fuel + 1, currentStart =>
    if currentStart < now then
      (if hasOverlap existingPrograms currentStart (currentStart + TWO_HOURS_MS) then []
       else [mkFallback channelId currentStart]) ++
      fallbackLoop existingPrograms channelId now fuel (currentStart + TWO_HOURS_MS)
    else []

/-- Initial `currentStart` of `generateFallbackPrograms` (epg-parser.ts 77-87):
`startTime = now - lookbackHours*3600000` rounded down to the nearest even
hour since the epoch (`Math.floor` on a float division of integers is `Int.fdiv`). -/
def roundedStart (now lookbackHours : Int) : Int :=
  let startTime := now - lookbackHours * 60 * 60 * 1000
  let hoursSinceEpoch := startTime.fdiv (60 * 60 * 1000)
  let roundedHours := hoursSinceEpoch.fdiv 2 * 2
  roundedHours * 60 * 60 * 1000

/-- Enough fuel for the while loop: one step per full 2-hour block between the
rounded start and `now`, plus one. -/
def fallbackFuel (now lookbackHours : Int) : Nat :=
  (now - roundedStart now lookbackHours).toNat / TWO_HOURS_MS.toNat + 1

/-- `generateFallbackPrograms(existingPrograms, channelId, lookbackHours)`
(epg-parser.ts 71-113).  The call `new Date()` is passed explicitly as `now`. -/
def generateFallbackPrograms (existingPrograms : List EPGProgram) (channelId : String)
    (lookbackHours now : Int) : List EPGProgram :=
  fallbackLoop existingPrograms channelId now (fallbackFuel now lookbackHours)
    (roundedStart now lookbackHours)

/-- Every program emitted by the fallback loop is a 2-hour block starting at a
slot whose overlap test failed. -/
theorem fallbackLoop_mem {existingPrograms : List EPGProgram} {channelId : String}
    {now : Int} : ∀ {fuel : Nat} {currentStart : Int} {f : EPGProgram},
    f ∈ fallbackLoop existingPrograms channelId now fuel currentStart →
    ∃ cs : Int, f = mkFallback channelId cs ∧
      hasOverlap existingPrograms cs (cs + TWO_HOURS_MS) = false := by
  intro fuel
  induction fuel with
  | zero => intro cs f h; simp [fallbackLoop] at h
  | succ n ih =>
    intro currentStart f h
    simp only [fallbackLoop] at h
    by_cases hlt : currentStart < now
    · rw [if_pos hlt] at h
      rcases List.mem_append.mp h with h1 | h2
      · by_cases hov : hasOverlap existingPrograms currentStart (currentStart + TWO_HOURS_MS)
        · rw [if_pos hov] at h1; simp at h1
        · rw [if_neg hov] at h1
          simp only [List.mem_singleton] at h1
          exact ⟨currentStart, h1, Bool.eq_false_iff.mpr hov⟩
      · exact ih h2
    · rw [if_neg hlt] at h
      simp at h

/-- The fuel computed by `fallbackFuel` never runs out: whenever the fuel
covers the remaining window (`now - currentStart ≤ 2h * fuel`), the loop is
stopped by the `currentStart < now` test, so any two sufficient fuels agree. -/
theorem fallbackLoop_fuel_irrelevant {existingPrograms : List EPGProgram}
    {channelId : String} {now : Int} :
    ∀ (fuel₁ fuel₂ : Nat) (currentStart : Int),
    now - currentStart ≤ TWO_HOURS_MS * fuel₁ →
    now - currentStart ≤ TWO_HOURS_MS * fuel₂ →
    fallbackLoop existingPrograms channelId now fuel₁ currentStart =
      fallbackLoop existingPrograms channelId now fuel₂ currentStart := by
  have h2i : TWO_HOURS_MS = 7200000 := rfl
  intro fuel₁
  induction fuel₁ with
  | zero =>
    intro fuel₂ cs h1 h2
    have hge : ¬ cs < now := by rw [h2i] at h1; simp at h1; omega
    match fuel₂ with
    | 0 => rfl
    | m + 1 => simp only [fallbackLoop]; rw [if_neg hge]
  | succ n ih =>
    intro fuel₂ cs h1 h2
    rw [h2i] at h1 h2
    match fuel₂ with
    | 0 =>
      have hge : ¬ cs < now := by simp at h2; omega
      simp only [fallbackLoop]; rw [if_neg hge]
    | m + 1 =>
      simp only [fallbackLoop]
      by_cases hlt : cs < now
      · rw [if_pos hlt, if_pos hlt]
        rw [ih m (cs + TWO_HOURS_MS)
          (by rw [h2i]; push_cast at h1; omega)
          (by rw [h2i]; push_cast at h2; omega)]
      · rw [if_neg hlt, if_neg hlt]

/-- An entry covering an instant has concrete (non-NaN) bounds around it. -/
theorem inInterval_some {p : EPGProgram} {t : Int} (h : inInterval p t = true) :
    ∃ ps pe, p.start = some ps ∧ p.endTime = some pe ∧ ps ≤ t ∧ t < pe := by
  rcases hps : p.start with _ | ps <;> rcases hpe : p.endTime with _ | pe <;>
    simp [inInterval, jsLe, jsLt, hps, hpe] at h
  exact ⟨ps, pe, rfl, rfl, h.1, h.2⟩

/-! ## Combined list (App.tsx 63-66): real entries plus fallback, sorted -/

/-- Comparator of `sort((a, b) => a.start.getTime() - b.start.getTime())`
(App.tsx 66, epg-parser.ts 57).  A `le`-style switch for the stable merge
sort: `le a b` iff the comparator is `<= 0`.  When a `getTime()` is `NaN`
the comparator result is `NaN`, which ECMAScript `SortCompare` treats as `0`
(a tie), and a stable sort keeps order on ties — hence `true`. -/
def sortLe (a b : EPGProgram) : Bool :=
  match a.start, b.start with
  | some x, some y => x ≤ y
  | _, _ => true

/-- `list.sort((a, b) => a.start.getTime() - b.start.getTime())`, modelled by
the stable `List.mergeSort`. -/
def sortByStart (l : List EPGProgram) : List EPGProgram := l.mergeSort sortLe

/-- The combined per-channel list built in App.tsx 63-66:
`[...programs, ...generateFallbackPrograms(programs, channelId, 48)]
.sort((a, b) => a.start.getTime() - b.start.getTime())`,
generalized over the lookback parameter and with `new Date()` passed as `now`. -/
def fillGapsCombined (programs : List EPGProgram) (channelId : String)
    (lookbackHours now : Int) : List EPGProgram :=
  sortByStart (programs ++ generateFallbackPrograms programs channelId lookbackHours now)

/-- Total order on entries by start-time key (`none` collapsed to 0); used
only to reason about `sortLe` on lists of valid entries. -/
def startKeyLe (a b : EPGProgram) : Bool := decide (a.start.getD 0 ≤ b.start.getD 0)

theorem sortLe_eq_startKeyLe {a b : EPGProgram} (ha : a.start.isSome = true)
    (hb : b.start.isSome = true) : sortLe a b = startKeyLe a b := by
  rcases hx : a.start with _ | x
  · rw [hx] at ha; simp at ha
  · rcases hy : b.start with _ | y
    · rw [hy] at hb; simp at hb
    · simp [sortLe, startKeyLe, hx, hy]

theorem mergeSort_sortLe_eq_startKeyLe {l : List EPGProgram}
    (h : ∀ p ∈ l, p.start.isSome = true) :
    l.mergeSort sortLe = l.mergeSort startKeyLe := by
  have hmap := @List.map_mergeSort EPGProgram EPGProgram sortLe startKeyLe id l
    (fun a ha b hb => sortLe_eq_startKeyLe (h a ha) (h b hb))
  simpa using hmap

theorem pairwise_mergeSort_startKeyLe (l : List EPGProgram) :
    (l.mergeSort startKeyLe).Pairwise (fun a b => startKeyLe a b = true) :=
  List.sorted_mergeSort
    (fun a b c hab hbc => by
      simp only [startKeyLe, decide_eq_true_eq] at *; omega)
    (fun a b => by
      simp only [startKeyLe]
      rcases Int.le_total (a.start.getD 0) (b.start.getD 0) with h | h <;> simp [h]) l

/-- Sorting an already `sortByStart`-sorted list of valid entries is the
identity (stability plus idempotence of the stable sort). -/
theorem sortByStart_idem {l : List EPGProgram} (h : ∀ p ∈ l, p.start.isSome = true) :
    sortByStart (sortByStart l) = sortByStart l := by
  unfold sortByStart
  have hmem : ∀ p ∈ l.mergeSort sortLe, p.start.isSome = true := by
    intro p hp
    exact h p (List.mem_mergeSort.mp hp)
  rw [mergeSort_sortLe_eq_startKeyLe hmem, mergeSort_sortLe_eq_startKeyLe h]
  exact List.mergeSort_of_sorted (pairwise_mergeSort_startKeyLe l)

/-- Re-running the fallback loop over a list that already contains both the
real entries and every block the first run produced synthesizes nothing. -/
theorem fallbackLoop_refill_nil (real merged : List EPGProgram) (channelId : String)
    (now : Int) (hreal : ∀ p ∈ real, p ∈ merged) :
    ∀ (fuel : Nat) (currentStart : Int),
    (∀ f ∈ fallbackLoop real channelId now fuel currentStart, f ∈ merged) →
    fallbackLoop merged channelId now fuel currentStart = [] := by
  intro fuel
  induction fuel with
  | zero => intro cs _; rfl
  | succ n ih =>
    intro cs hsub
    simp only [fallbackLoop]
    by_cases hlt : cs < now
    · rw [if_pos hlt]
      have hov2 : hasOverlap merged cs (cs + TWO_HOURS_MS) = true := by
        by_cases hov : hasOverlap real cs (cs + TWO_HOURS_MS)
        · simp only [hasOverlap, List.any_eq_true] at hov ⊢
          obtain ⟨p, hp, hpred⟩ := hov
          exact ⟨p, hreal p hp, hpred⟩
        · have hmem : mkFallback channelId cs ∈ merged := by
            apply hsub
            simp only [fallbackLoop]
            rw [if_pos hlt, if_neg hov]
            exact List.mem_append.mpr (Or.inl (List.mem_singleton.mpr rfl))
          simp only [hasOverlap, List.any_eq_true]
          refine ⟨mkFallback channelId cs, hmem, ?_⟩
          have h2i : TWO_HOURS_MS = 7200000 := rfl
          simp only [mkFallback, jsLe, jsLt, h2i]
          simp only [Bool.or_eq_true, Bool.and_eq_true, decide_eq_true_eq]
          omega
      rw [if_pos hov2]
      simp only [List.nil_append]
      apply ih
      intro f hf
      apply hsub
      simp only [fallbackLoop]
      rw [if_pos hlt]
      exact List.mem_append.mpr (Or.inr hf)
    · rw [if_neg hlt]

/-- Every entry in the combined list has a concrete start time, provided the
real entries do (synthetic blocks always do). -/
theorem fillGapsCombined_valid {programs : List EPGProgram} {channelId : String}
    {lookbackHours now : Int} (hvalid : ∀ p ∈ programs, p.start.isSome = true) :
    ∀ p ∈ fillGapsCombined programs channelId lookbackHours now, p.start.isSome = true := by
  intro p hp
  unfold fillGapsCombined sortByStart at hp
  rcases List.mem_append.mp (List.mem_mergeSort.mp hp) with h | h
  · exact hvalid p h
  · obtain ⟨cs, rfl, -⟩ := fallbackLoop_mem h
    rfl

/-- C1.  Gap-fill non-overlap: for every input list of real program entries,
every channel id, every lookback value and every value of `now`, no synthetic
entry produced by `generateFallbackPrograms` has a half-open interval
`[start, end)` that intersects the half-open interval `[start, end)` of any
real entry in the input list. -/
theorem gapfill_no_overlap (existingPrograms : List EPGProgram) (channelId : String)
    (lookbackHours now : Int) (f : EPGProgram)
    (hf : f ∈ generateFallbackPrograms existingPrograms channelId lookbackHours now)
    (p : EPGProgram) (hp : p ∈ existingPrograms) (t : Int) :
    ¬(inInterval f t = true ∧ inInterval p t = true) := by
  rintro ⟨hft, hpt⟩
  simp only [generateFallbackPrograms] at hf
  obtain ⟨cs, rfl, hov⟩ := fallbackLoop_mem hf
  have h2i : TWO_HOURS_MS = 7200000 := rfl
  simp only [mkFallback, inInterval, jsLe, jsLt, Bool.and_eq_true, decide_eq_true_eq] at hft
  obtain ⟨ps, pe, hps, hpe, hps_le, hpe_gt⟩ := inInterval_some hpt
  have hcontra : hasOverlap existingPrograms cs (cs + TWO_HOURS_MS) = true := by
    simp only [hasOverlap, List.any_eq_true]
    refine ⟨p, hp, ?_⟩
    simp only [hps, hpe, jsLe, jsLt, Bool.or_eq_true, Bool.and_eq_true, decide_eq_true_eq]
    omega
  rw [hov] at hcontra
  exact Bool.false_ne_true hcontra

/-- Witness for C1 at a concrete input: with one real entry `[0, 1)`,
`now = 7200001` and lookback `0`, a synthetic block `[7200000, 14400000)` is
produced and (by `gapfill_no_overlap`) does not intersect the real entry. -/
theorem gapfill_no_overlap_witness :
    mkFallback "c" 7200000 ∈
      generateFallbackPrograms [⟨"p", "P", some 0, some 1⟩] "c" 0 7200001 ∧
    ¬(inInterval (mkFallback "c" 7200000) 0 = true ∧
      inInterval ⟨"p", "P", some 0, some 1⟩ 0 = true) :=
  ⟨by decide,
   gapfill_no_overlap [⟨"p", "P", some 0, some 1⟩] "c" 0 7200001
     (mkFallback "c" 7200000) (by decide) ⟨"p", "P", some 0, some 1⟩ (by decide) 0⟩

/-- C2.  Gap-fill idempotence: for a fixed `now`, running the synthesizer a
second time on the list obtained by merging the real entries with the
synthetic entries of the first run (re-sorted by start) produces no
additional synthetic entries, and the combined list after the second run is
identical to the one after the first run.  Real entries are required to carry
valid (non-NaN) start timestamps, as the spec's data model prescribes. -/
theorem gapfill_idempotent (programs : List EPGProgram) (channelId : String)
    (lookbackHours now : Int)
    (hvalid : ∀ p ∈ programs, p.start.isSome = true) :
    generateFallbackPrograms (fillGapsCombined programs channelId lookbackHours now)
      channelId lookbackHours now = [] ∧
    fillGapsCombined (fillGapsCombined programs channelId lookbackHours now)
      channelId lookbackHours now =
      fillGapsCombined programs channelId lookbackHours now := by
  set combined := fillGapsCombined programs channelId lookbackHours now with hcomb
  have hnil : generateFallbackPrograms combined channelId lookbackHours now = [] := by
    simp only [generateFallbackPrograms]
    apply fallbackLoop_refill_nil programs combined channelId now
    · intro p hp
      rw [hcomb]
      unfold fillGapsCombined sortByStart
      exact List.mem_mergeSort.mpr (List.mem_append.mpr (Or.inl hp))
    · intro f hf
      rw [hcomb]
      unfold fillGapsCombined sortByStart
      refine List.mem_mergeSort.mpr (List.mem_append.mpr (Or.inr ?_))
      simpa only [generateFallbackPrograms] using hf
  refine ⟨hnil, ?_⟩
  calc fillGapsCombined combined channelId lookbackHours now
      = sortByStart (combined ++ []) := by rw [fillGapsCombined, hnil]
    _ = sortByStart combined := by rw [List.append_nil]
    _ = combined := by
        rw [hcomb]
        unfold fillGapsCombined
        refine sortByStart_idem ?_
        intro p hp
        rcases List.mem_append.mp hp with h | h
        · exact hvalid p h
        · simp only [generateFallbackPrograms] at h
          obtain ⟨cs, rfl, -⟩ := fallbackLoop_mem h
          rfl

/-- Witness for C2 at a concrete input: one valid real entry `[0, 1)`,
`now = 7200001`, lookback `0`. -/
theorem gapfill_idempotent_witness :
    generateFallbackPrograms
      (fillGapsCombined [⟨"p", "P", some 0, some 1⟩] "c" 0 7200001) "c" 0 7200001 = [] ∧
    fillGapsCombined (fillGapsCombined [⟨"p", "P", some 0, some 1⟩] "c" 0 7200001)
      "c" 0 7200001 = fillGapsCombined [⟨"p", "P", some 0, some 1⟩] "c" 0 7200001 :=
  gapfill_idempotent [⟨"p", "P", some 0, some 1⟩] "c" 0 7200001 (by decide)

/-! ## Seek clamping (`handleVideoSeek`, App.tsx 320-334) -/

/-- `handleVideoSeek` (App.tsx 320-334): the new `streamStartTime` chosen for
a requested seek time, with `new Date()` passed as `now`:
`if (seekTime > now - 30*1000) { if (streamStartTime < seekTime) now else now - 30*1000 } else seekTime`. -/
def resolveSeekTarget (now streamStartTime seekTime : Int) : Int :=
  if seekTime > now - 30 * 1000 then
    if streamStartTime < seekTime then now else now - 30 * 1000
  else
    seekTime

/-- C3.  Seek clamping: a seek within the last 30 seconds of wall-clock `now`
yields `now` when the current stream start is earlier than the requested
time, and `now - 30s` otherwise; a seek 30 seconds or more before `now`
passes through unchanged.  In particular, with `now = T`: a seek to `T - 5s`
with stream start `T - 100s` yields `T`, and a seek to `T - 5s` with stream
start `T - 1s` yields `T - 30s`. -/
theorem seek_clamp (now streamStartTime seekTime : Int) :
    (seekTime > now - 30000 → streamStartTime < seekTime →
      resolveSeekTarget now streamStartTime seekTime = now) ∧
    (seekTime > now - 30000 → ¬streamStartTime < seekTime →
      resolveSeekTarget now streamStartTime seekTime = now - 30000) ∧
    (seekTime ≤ now - 30000 →
      resolveSeekTarget now streamStartTime seekTime = seekTime) ∧
    resolveSeekTarget now (now - 100000) (now - 5000) = now ∧
    resolveSeekTarget now (now - 1000) (now - 5000) = now - 30000 := by
  unfold resolveSeekTarget
  refine ⟨?_, ?_, ?_, ?_, ?_⟩
  · intro h1 h2
    rw [if_pos (by omega), if_pos h2]
  · intro h1 h2
    rw [if_pos (by omega), if_neg h2]
    norm_num
  · intro h1
    rw [if_neg (by omega)]
  · rw [if_pos (by omega), if_pos (by omega)]
  · rw [if_pos (by omega), if_neg (by omega)]
    norm_num

/-- Witness for C3 at `now = 1000000`: a seek to `now - 5000` with stream
start `now - 100000` clamps to `now`. -/
theorem seek_clamp_witness : resolveSeekTarget 1000000 900000 995000 = 1000000 :=
  (seek_clamp 1000000 900000 995000).1 (by omega) (by omega)

/-! ## Channel navigation (`handleChannelNavigate`, App.tsx 348-373) -/

/-- Navigation target: the `"prev" | "next" | number` argument of
`handleChannelNavigate` (the number is the 1-based channel index). -/
inductive NavTarget where
  | prev
  | next
  | index (n : Int)
  deriving DecidableEq, Repr

/-- `Channel` record from `src/types/player.ts` as built by `parseM3U`
(m3u-parser.ts 89-99). -/
structure Channel where
  id : String
  name : String
  group : String
  url : String
  logo : Option String
  tvgId : Option String
  tvgName : Option String
  catchup : Option String
  catchupSource : Option String
  deriving DecidableEq, Repr

/-- `handleChannelNavigate` (App.tsx 348-373).  `currentIndex` models
`metadata.channels.findIndex(ch => ch === currentChannel)` — the position of
the current channel in the catalog, `-1` when absent — and `none` models
`currentChannel` being null (the early `if (!currentChannel) return`).  The
result is the index passed to `selectChannel(metadata.channels[i])`, `none`
when the handler returns without selecting (a no-op). -/
def handleChannelNavigate (channels : List Channel) (currentIndex : Option Int)
    (target : NavTarget) : Option Nat :=
  if channels.length = 0 then none
  else
    match target with
    | .index n =>
      if 1 ≤ n ∧ n ≤ (channels.length : Int) then some (n - 1).toNat else none
    | .prev =>
      match currentIndex with
      | none => none
      | some ci => some (if ci > 0 then ci - 1 else (channels.length : Int) - 1).toNat
    | .next =>
      match currentIndex with
      | none => none
      | some ci => some (if ci < (channels.length : Int) - 1 then ci + 1 else 0).toNat

/-- C7.  Navigation wraps around: for a non-empty catalog, "next" from the
last channel selects the first channel and "prev" from the first channel
selects the last; a 1-based explicit index outside `1..length` selects no
channel (no-op). -/
theorem navigate_wraparound (channels : List Channel) (h : channels ≠ []) :
    (handleChannelNavigate channels (some ((channels.length : Int) - 1)) .next =
      some 0) ∧
    (handleChannelNavigate channels (some 0) .prev = some (channels.length - 1)) ∧
    (∀ cur : Option Int, ∀ n : Int, (n < 1 ∨ n > (channels.length : Int)) →
      handleChannelNavigate channels cur (.index n) = none) := by
  have hlen : channels.length ≠ 0 := by
    intro h0; exact h (List.length_eq_zero.mp h0)
  refine ⟨?_, ?_, ?_⟩
  · unfold handleChannelNavigate
    rw [if_neg hlen]
    simp only [Option.some.injEq]
    rw [if_neg (by omega)]
    rfl
  · unfold handleChannelNavigate
    rw [if_neg hlen]
    simp only [Option.some.injEq]
    rw [if_neg (by omega)]
    omega
  · intro cur n hn
    unfold handleChannelNavigate
    rw [if_neg hlen]
    simp only []
    rw [if_neg (by omega)]

/-- Witness for C7 on a concrete two-channel catalog. -/
theorem navigate_wraparound_witness :
    (handleChannelNavigate
      [⟨"a", "A", "Default", "u1", none, none, none, none, none⟩,
       ⟨"b", "B", "Default", "u2", none, none, none, none, none⟩] (some 1) .next =
        some 0) ∧
    (handleChannelNavigate
      [⟨"a", "A", "Default", "u1", none, none, none, none, none⟩,
       ⟨"b", "B", "Default", "u2", none, none, none, none, none⟩] (some 0) .prev =
        some 1) ∧
    (∀ cur : Option Int, ∀ n : Int, (n < 1 ∨ n > (2 : Int)) →
      handleChannelNavigate
        [⟨"a", "A", "Default", "u1", none, none, none, none, none⟩,
         ⟨"b", "B", "Default", "u2", none, none, none, none, none⟩] cur (.index n) =
        none) :=
  navigate_wraparound
    [⟨"a", "A", "Default", "u1", none, none, none, none, none⟩,
     ⟨"b", "B", "Default", "u2", none, none, none, none, none⟩] (by decide)

/-! ## Playback-segments effect (App.tsx 295-318) -/

/-- JS truthiness of an optional string attribute (`undefined` and `""` are
falsy). -/
def jsTruthyStr (o : Option String) : Bool :=
  match o with
  | some s => s ≠ ""
  | none => false

/-- Outcome of the playback-segments effect.  `signalError` exists in the
caller's state space (the component has a `setError` channel) but, as the
definition below shows, the effect never produces it. -/
inductive PlaybackEffect where
  | live (url : String)
  | catchup (streamStart : Int) (tailOffset : Int)
  | silent
  | signalError (msg : String)
  deriving DecidableEq, Repr

/-- True exactly on the error-signalling outcome. -/
def isErrorSignal : PlaybackEffect → Bool
  | .signalError _ => true
  | _ => false

/-- The effect of App.tsx 295-318, with `new Date()` passed as `now`: a
stream start within 3 s of `now` plays live; otherwise a channel lacking
catchup capability triggers the early `return` (no state change); otherwise
catchup segments are built (`buildCatchupSegments` lives outside this core;
its arguments are recorded). -/
def playbackStreamEffect (channel : Channel) (streamStartTime now tailOffset : Int) :
    PlaybackEffect :=
  if streamStartTime > now - 3000 then .live channel.url
  else if !jsTruthyStr channel.catchup || !jsTruthyStr channel.catchupSource then .silent
  else .catchup streamStartTime tailOffset

/-- Counterexample to C9: starting catchup-time playback (stream start more
than 3 s in the past) on a channel lacking catchup capability completes
silently — the effect returns early with no error signalled, contradicting
the claim that such an invocation fails loudly. -/
theorem catchup_missing_capability_silent_cex :
    playbackStreamEffect
      ⟨"a", "A", "Default", "http://u", none, none, none, none, none⟩ 0 10000 60 =
      PlaybackEffect.silent ∧
    isErrorSignal
      (playbackStreamEffect
        ⟨"a", "A", "Default", "http://u", none, none, none, none, none⟩ 0 10000 60) =
      false := by
  decide

/-- C9 (amended).  A catchup-time playback request on a channel lacking
catchup capability (falsy catchup flag or falsy catchup-source template)
completes silently: the effect performs the early return, building no
segments and signalling no error. -/
theorem catchup_missing_capability_silent (channel : Channel)
    (streamStartTime now tailOffset : Int)
    (hpast : ¬streamStartTime > now - 3000)
    (hnocatchup : jsTruthyStr channel.catchup = false ∨
      jsTruthyStr channel.catchupSource = false) :
    playbackStreamEffect channel streamStartTime now tailOffset =
      PlaybackEffect.silent ∧
    isErrorSignal (playbackStreamEffect channel streamStartTime now tailOffset) =
      false := by
  have hres : playbackStreamEffect channel streamStartTime now tailOffset =
      PlaybackEffect.silent := by
    unfold playbackStreamEffect
    rw [if_neg hpast, if_pos]
    rcases hnocatchup with h | h <;> simp [h]
  exact ⟨hres, by rw [hres]; rfl⟩

/-- Witness for the amended C9 at a concrete channel and times. -/
theorem catchup_missing_capability_silent_witness :
    playbackStreamEffect
      ⟨"b", "B", "Default", "http://v", none, none, none, some "m", none⟩ 0 10000 60 =
      PlaybackEffect.silent ∧
    isErrorSignal
      (playbackStreamEffect
        ⟨"b", "B", "Default", "http://v", none, none, none, some "m", none⟩ 0 10000 60) =
      false :=
  catchup_missing_capability_silent
    ⟨"b", "B", "Default", "http://v", none, none, none, some "m", none⟩ 0 10000 60
    (by decide) (by decide)

/-! ## M3U playlist parser (`parseM3U`, m3u-parser.ts) -/

/-- JS `\s` / `trim` whitespace (the ASCII part plus NBSP; the remaining
Unicode space characters never occur in the playlist formats at issue). -/
def jsWhitespace (c : Char) : Bool :=
  c = ' ' || c = '\t' || c = '\n' || c = '\r' || c = '\x0b' || c = '\x0c' || c = ' '

/-- `String.prototype.trim()` on a character list. -/
def trimChars (s : List Char) : List Char :=
  ((s.dropWhile jsWhitespace).reverse.dropWhile jsWhitespace).reverse

/-- `content.split(/\r?\n/)` (m3u-parser.ts 9): split at `\n`, treating a
directly preceding `\r` as part of the terminator; a lone `\r` stays. -/
def splitLines : List Char → List (List Char)
  | [] => [[]]
  | '\r' :: '\n' :: rest => [] :: splitLines rest
  | '\n' :: rest => [] :: splitLines rest
  | c :: rest =>
    match splitLines rest with
    | l :: ls => (c :: l) :: ls
    | [] => [[c]]

/-- Attempt to match the regex `key="([^"]+)"` at the start of `s`, where
`pat` is the literal `key="` part: the capture is the maximal run of
non-quote characters, which must be non-empty and followed by `"`. -/
def tryMatchAttr (pat s : List Char) : Option (List Char) :=
  if pat.isPrefixOf s then
    let rest := s.drop pat.length
    let cap := rest.takeWhile (fun c => c ≠ '"')
    if cap.isEmpty then none
    else
      match rest.drop cap.length with
      | '"' :: _ => some cap
      | _ => none
  else none

/-- Leftmost match of `key="([^"]+)"`: try each start position left to
right (the semantics of `String.prototype.match` with a non-global regex). -/
def scanAttr (pat : List Char) : List Char → Option (List Char)
  | [] => none
  | c :: rest =>
    match tryMatchAttr pat (c :: rest) with
    | some cap => some cap
    | none => scanAttr pat rest

/-- `line.match(/key="([^"]+)"/)?.[1]`, the tolerant `key="value"` attribute
extraction used throughout `parseM3U`. -/
def findAttr (key : String) (line : List Char) : Option String :=
  (scanAttr (key.toList ++ ['=', '"']) line).map fun cap => String.mk cap

/-- `s.split(/,\s*/)`: split at each comma together with the greedy run of
whitespace following it.  The Boolean argument tracks whether we are inside
such a post-comma whitespace run. -/
def splitCommaWs : Bool → List Char → List (List Char)
  | _, [] => [[]]
  | skipWs, c :: rest =>
    if skipWs && jsWhitespace c then splitCommaWs true rest
    else if c = ',' then [] :: splitCommaWs true rest
    else
      match splitCommaWs false rest with
      | p :: ps => (c :: p) :: ps
      | [] => [[c]]

/-- JS `a || b` on an optional string against a default (empty strings and
`undefined` are falsy). -/
def jsOr (o : Option String) (d : String) : String :=
  match o with
  | some s => if s = "" then d else s
  | none => d

/-- The `Partial<Channel>` accumulator `currentMeta` of `parseM3U`. -/
structure M3UMeta where
  tvgId : Option String
  tvgName : Option String
  logo : Option String
  group : Option String
  catchup : Option String
  catchupSource : Option String
  name : Option String
  deriving DecidableEq, Repr

/-- `currentMeta = {}`. -/
def emptyMeta : M3UMeta := ⟨none, none, none, none, none, none, none⟩

/-- `M3UMetadata` return value of `parseM3U` (m3u-parser.ts 106-110). -/
structure M3UMetadata where
  tvgUrl : Option String
  channels : List Channel
  groups : List String
  deriving DecidableEq, Repr

/-- Loop state of `parseM3U`: the channel list, the running group set (as an
insertion-ordered duplicate-free list), the pending metadata and the header
EPG URL. -/
structure ParseState where
  channels : List Channel
  groups : List String
  currentMeta : M3UMeta
  tvgUrl : Option String
  deriving DecidableEq, Repr

/-- `groups.add(g)` on the insertion-ordered set representation. -/
def addGroup (g : String) (gs : List String) : List String :=
  if g ∈ gs then gs else gs ++ [g]

/-- Handling of one `#EXTINF:` line body (m3u-parser.ts 31-81): attribute
extraction plus the display title taken from the last comma-split field
(`split(/,\s*/).pop()`), trimmed, and only kept when non-empty. -/
def parseExtInf (infLine : List Char) : M3UMeta :=
  { tvgId := findAttr "tvg-id" infLine
    tvgName := findAttr "tvg-name" infLine
    logo := findAttr "tvg-logo" infLine
    group := findAttr "group-title" infLine
    catchup := findAttr "catchup" infLine
    catchupSource := findAttr "catchup-source" infLine
    name :=
      match (splitCommaWs false infLine).getLast? with
      | some nm => if nm.isEmpty then none else some (String.mk (trimChars nm))
      | none => none }

/-- Channel construction at a URL line (m3u-parser.ts 89-99); `idx` is
`channels.length` at push time. -/
def mkChannel (meta : M3UMeta) (idx : Nat) (url : List Char) : Channel :=
  { id := jsOr meta.tvgId (jsOr meta.name ("channel-" ++ toString idx))
    name := jsOr meta.name ("Channel " ++ toString (idx + 1))
    group := jsOr meta.group "Default"
    url := String.mk url
    logo := meta.logo
    tvgId := meta.tvgId
    tvgName := meta.tvgName
    catchup := meta.catchup
    catchupSource := meta.catchupSource }

/-- Whether `s` starts with the literal `pat` (`String.prototype.startsWith`). -/
def startsWithChars (pat : String) (s : List Char) : Bool :=
  pat.toList.isPrefixOf s

/-- One iteration of the `for (const line of lines)` loop of `parseM3U`
(m3u-parser.ts 15-104). -/
def processLine (st : ParseState) (line : List Char) : ParseState :=
  let trimmedLine := trimChars line
  if trimmedLine.isEmpty then st
  else if startsWithChars "#EXTM3U" trimmedLine then
    match findAttr "tvg-url" trimmedLine with
    | some u => { st with tvgUrl := some u }
    | none => st
  else if startsWithChars "#EXTINF:" trimmedLine then
    let meta := parseExtInf (trimmedLine.drop 8)
    { st with
      currentMeta := meta
      groups :=
        match meta.group with
        | some g => addGroup g st.groups
        | none => st.groups }
  else if startsWithChars "#" trimmedLine then st
  else if jsTruthyStr st.currentMeta.name then
    { st with
      channels := st.channels ++ [mkChannel st.currentMeta st.channels.length trimmedLine]
      currentMeta := emptyMeta }
  else st

/-- Comparator of `Array.from(groups).sort()` (default lexicographic string
order; Lean's codepoint order, which agrees with the UTF-16 order on the
strings at issue). -/
def strLe (a b : String) : Bool := decide (a ≤ b)

/-- `parseM3U(m3uContent)` (m3u-parser.ts 8-111). -/
def parseM3U (m3uContent : String) : M3UMetadata :=
  let lines := splitLines m3uContent.toList
  let final := lines.foldl processLine ⟨[], [], emptyMeta, none⟩
  { tvgUrl := final.tvgUrl
    channels := final.channels
    groups := final.groups.mergeSort strLe }

/-- A successful `key="([^"]+)"` match captures at least one character. -/
theorem tryMatchAttr_ne_nil {pat s cap : List Char}
    (h : tryMatchAttr pat s = some cap) : cap ≠ [] := by
  simp only [tryMatchAttr] at h
  split at h
  · split at h
    · exact absurd h (by simp)
    · next hne =>
      split at h
      · injection h with h1
        subst h1
        intro hnil
        exact hne (by rw [hnil]; rfl)
      · exact absurd h (by simp)
  · exact absurd h (by simp)

/-- `scanAttr` only returns non-empty captures. -/
theorem scanAttr_ne_nil {pat : List Char} :
    ∀ {s cap : List Char}, scanAttr pat s = some cap → cap ≠ [] := by
  intro s
  induction s with
  | nil => intro cap h; exact absurd h (by simp [scanAttr])
  | cons c rest ih =>
    intro cap h
    simp only [scanAttr] at h
    split at h
    · cases h
      case _ heq => exact tryMatchAttr_ne_nil heq
    · exact ih h

/-- `findAttr` never produces the empty string (the regex requires at least
one captured character). -/
theorem findAttr_ne_empty {key : String} {line : List Char} {v : String}
    (h : findAttr key line = some v) : v ≠ "" := by
  simp only [findAttr, Option.map_eq_some'] at h
  obtain ⟨cap, hcap, rfl⟩ := h
  intro he
  exact scanAttr_ne_nil hcap (congrArg String.data he)

/-- Channel-identity invariant maintained by the `parseM3U` loop: every
emitted channel has a non-empty id and name, and the id is the source
identifier when that is truthy, else the display title. -/
def channelIdOk (ch : Channel) : Prop :=
  ch.id ≠ "" ∧ ch.name ≠ "" ∧ ch.id = jsOr ch.tvgId ch.name

theorem processLine_channelIdOk {st : ParseState} (line : List Char)
    (hch : ∀ ch ∈ st.channels, channelIdOk ch) :
    ∀ ch ∈ (processLine st line).channels, channelIdOk ch := by
  simp only [processLine]
  split_ifs with h1 h2 h3 h4 h5
  · exact hch
  · cases findAttr "tvg-url" (trimChars line) <;> exact hch
  · exact hch
  · exact hch
  · intro ch hmem
    rcases List.mem_append.mp hmem with hold | hnew
    · exact hch ch hold
    · rw [List.mem_singleton] at hnew
      subst hnew
      rcases hname : st.currentMeta.name with _ | n
      · rw [hname] at h5; simp [jsTruthyStr] at h5
      · have hn : n ≠ "" := by
          rw [hname] at h5; simpa [jsTruthyStr] using h5
        refine ⟨?_, ?_, ?_⟩ <;>
          simp only [mkChannel, hname, jsOr, if_neg hn] <;>
          cases htv : st.currentMeta.tvgId with
          | none => simp [hn]
          | some t =>
            by_cases ht : t = "" <;> simp [ht, hn]
  · exact hch

theorem foldl_channelIdOk (lines : List (List Char)) :
    ∀ st : ParseState, (∀ ch ∈ st.channels, channelIdOk ch) →
    ∀ ch ∈ (lines.foldl processLine st).channels, channelIdOk ch := by
  induction lines with
  | nil => intro st h; exact h
  | cons l ls ih =>
    intro st h
    rw [List.foldl_cons]
    exact ih _ (processLine_channelIdOk l h)

/-- C6.  Every channel emitted by `parseM3U` has a non-empty `id`; the id is
the `tvg-id` attribute when that is present (and hence non-empty), else the
display title (itself non-empty — the positional fallback tier
`channel-<index>` is never needed because a channel is only emitted when a
truthy title is pending). -/
theorem parseM3U_channel_ids (m3uContent : String) :
    ∀ ch ∈ (parseM3U m3uContent).channels,
      ch.id ≠ "" ∧ ch.name ≠ "" ∧ ch.id = jsOr ch.tvgId ch.name := by
  intro ch hmem
  exact foldl_channelIdOk (splitLines m3uContent.toList) ⟨[], [], emptyMeta, none⟩
    (by intro ch h; simp at h) ch hmem

/-- Witness for C6 on the spec's round-trip playlist: the emitted channel has
id `news1` (the `tvg-id`), which is non-empty. -/
theorem parseM3U_channel_ids_witness :
    (⟨"news1", "News HD", "Info", "http://x/1", none, some "news1", none, none, none⟩ : Channel) ∈
      (parseM3U "#EXTINF:-1 tvg-id=\"news1\" group-title=\"Info\",News HD\nhttp://x/1").channels ∧
    ("news1" : String) ≠ "" ∧ ("News HD" : String) ≠ "" ∧
      ("news1" : String) = jsOr (some "news1") "News HD" :=
  ⟨by decide,
   parseM3U_channel_ids "#EXTINF:-1 tvg-id=\"news1\" group-title=\"Info\",News HD\nhttp://x/1"
     ⟨"news1", "News HD", "Info", "http://x/1", none, some "news1", none, none, none⟩
     (by decide)⟩

/-! ## Groups returned by `parseM3U` (C10) -/

/-- The `group-title` attribute of a playlist line that `parseM3U` treats as
an `#EXTINF:` metadata line (mirrors the branch order of `processLine`). -/
def lineGroupTitle (line : List Char) : Option String :=
  let t := trimChars line
  if t.isEmpty then none
  else if startsWithChars "#EXTM3U" t then none
  else if startsWithChars "#EXTINF:" t then findAttr "group-title" (t.drop 8)
  else none

/-- All `group-title` attribute values seen in the input, in order of
appearance (with repetitions). -/
def groupTitlesOf (m3uContent : String) : List String :=
  (splitLines m3uContent.toList).filterMap lineGroupTitle

theorem processLine_groups (st : ParseState) (line : List Char) :
    (processLine st line).groups =
      match lineGroupTitle line with
      | some g => addGroup g st.groups
      | none => st.groups := by
  simp only [processLine, lineGroupTitle]
  split_ifs with h1 h2 h3 h4 h5
  · rfl
  · cases findAttr "tvg-url" (trimChars line) <;> rfl
  · show (match findAttr "group-title" ((trimChars line).drop 8) with
      | some g => addGroup g st.groups
      | none => st.groups) = _
    rfl
  · rfl
  · rfl
  · rfl

theorem mem_addGroup {x g : String} {gs : List String} :
    x ∈ addGroup g gs ↔ x ∈ gs ∨ x = g := by
  unfold addGroup
  split_ifs with h
  · constructor
    · exact Or.inl
    · rintro (hx | rfl)
      · exact hx
      · exact h
  · simp

theorem addGroup_nodup {g : String} {gs : List String} (h : gs.Nodup) :
    (addGroup g gs).Nodup := by
  unfold addGroup
  split_ifs with hg
  · exact h
  · rw [List.nodup_append]
    exact ⟨h, List.nodup_singleton g, by
      intro a ha hmem
      rw [List.mem_singleton] at hmem
      subst hmem
      exact hg ha⟩

theorem foldl_groups_mem (lines : List (List Char)) :
    ∀ (st : ParseState) (g : String),
      g ∈ (lines.foldl processLine st).groups ↔
        g ∈ st.groups ∨ g ∈ lines.filterMap lineGroupTitle := by
  induction lines with
  | nil => intro st g; simp
  | cons l ls ih =>
    intro st g
    rw [List.foldl_cons, ih, List.filterMap_cons]
    rcases h : lineGroupTitle l with _ | g'
    · rw [processLine_groups, h]
    · rw [processLine_groups, h]
      simp only [mem_addGroup, List.mem_cons]
      tauto

theorem foldl_groups_nodup (lines : List (List Char)) :
    ∀ st : ParseState, st.groups.Nodup → ((lines.foldl processLine st).groups).Nodup := by
  induction lines with
  | nil => intro st h; exact h
  | cons l ls ih =>
    intro st h
    rw [List.foldl_cons]
    apply ih
    rw [processLine_groups]
    rcases lineGroupTitle l with _ | g'
    · exact h
    · exact addGroup_nodup h

/-- C10.  The `groups` array returned by `parseM3U` contains exactly the
distinct `group-title` attribute values seen in the input, sorted and
duplicate-free; the sentinel group `"Default"` assigned to channels lacking
a `group-title` is never itself added, so (concretely) a playlist with one
group-less channel yields a channel in group `"Default"` while the returned
groups list is empty. -/
theorem parseM3U_groups_spec :
    (∀ m3uContent : String,
      ((parseM3U m3uContent).groups.Pairwise fun a b => strLe a b = true) ∧
      (parseM3U m3uContent).groups.Nodup ∧
      ∀ g, g ∈ (parseM3U m3uContent).groups ↔ g ∈ groupTitlesOf m3uContent) ∧
    (parseM3U "#EXTINF:-1,X\nhttp://u").channels.map (fun ch => ch.group) = ["Default"] ∧
    (parseM3U "#EXTINF:-1,X\nhttp://u").groups = [] := by
  refine ⟨?_, by decide, ?_⟩
  · intro m3uContent
    have hgr : (parseM3U m3uContent).groups =
        ((splitLines m3uContent.toList).foldl processLine
          ⟨[], [], emptyMeta, none⟩).groups.mergeSort strLe := rfl
    refine ⟨?_, ?_, ?_⟩
    · rw [hgr]
      exact List.sorted_mergeSort
        (fun a b c hab hbc => by
          simp only [strLe, decide_eq_true_eq] at *
          exact le_trans hab hbc)
        (fun a b => by
          simp only [strLe]
          rcases le_total a b with h | h <;> simp [h]) _
    · rw [hgr]
      exact (List.mergeSort_perm _ _).nodup_iff.mpr
        (foldl_groups_nodup _ _ List.nodup_nil)
    · intro g
      rw [hgr, List.mem_mergeSort, foldl_groups_mem]
      simp [groupTitlesOf]
  · show ((splitLines ("#EXTINF:-1,X\nhttp://u").toList).foldl processLine
      ⟨[], [], emptyMeta, none⟩).groups.mergeSort strLe = []
    rw [show ((splitLines ("#EXTINF:-1,X\nhttp://u").toList).foldl processLine
      ⟨[], [], emptyMeta, none⟩).groups = [] from by decide]
    exact List.mergeSort_nil

/-! ## EPG parser (`parseEPG`, epg-parser.ts 10-61)

The DOM extraction (`DOMParser`, `querySelectorAll("programme")`,
`getAttribute`, `querySelector("title")`) is abstracted: each `<programme>`
element contributes one `ProgrammeItem` holding its `channel`, `start` and
`stop` attributes and title text, each already defaulted to `""` when absent
(the `|| ""` in the source).  Everything from there on is modelled from the
code.  `new Date()` (used for missing timestamps) is passed as `now`. -/

/-- One `<programme>` element as read by the DOM queries in `parseEPG`. -/
structure ProgrammeItem where
  channel : String
  start : String
  stop : String
  title : String
  deriving DecidableEq, Repr

/-- Day number of a civil date (month 1-12; the day may lie outside its
month, shifting linearly), days since 1970-01-01, Gregorian calendar. -/
def daysFromCivil (y m d : Int) : Int :=
  let yAdj := if m ≤ 2 then y - 1 else y
  let era := yAdj.fdiv 400
  let yoe := yAdj - era * 400
  let mp := (m + 9).emod 12
  let doy := (153 * mp + 2).fdiv 5 + d - 1
  let doe := yoe * 365 + yoe.fdiv 4 - yoe.fdiv 100 + doy
  era * 146097 + doe - 719468

/-- `new Date(year, monthIndex, day, hour, minute, second).getTime()` with
the local clock taken as UTC (the parser performs no timezone conversion):
ECMAScript `MakeDay`/`MakeTime`, including the two-digit-year rule and
out-of-range field rollover. -/
def mkTimeMs (y monthIdx d h mi s : Int) : Int :=
  let yy := if 0 ≤ y ∧ y ≤ 99 then 1900 + y else y
  let ym := yy + monthIdx.fdiv 12
  let mn := monthIdx.emod 12
  daysFromCivil ym (mn + 1) d * 86400000 + h * 3600000 + mi * 60000 + s * 1000

/-- Value of a digit character in the given base (10 or 16), as accepted by
`parseInt`. -/
def digitVal (base : Nat) (c : Char) : Option Nat :=
  if c.isDigit then
    let v := c.toNat - '0'.toNat
    if v < base then some v else none
  else if base = 16 && 'a' ≤ c && c ≤ 'f' then some (c.toNat - 'a'.toNat + 10)
  else if base = 16 && 'A' ≤ c && c ≤ 'F' then some (c.toNat - 'A'.toNat + 10)
  else none

/-- Accumulate digit characters into a number. -/
def digitsToNat (base : Nat) (ds : List Char) : Nat :=
  ds.foldl (fun acc c => acc * base + (digitVal base c).getD 0) 0

/-- JS `parseInt(s)` (radix unspecified): skip leading whitespace, optional
sign, optional `0x`/`0X` hex prefix, then the longest run of digits;
`none` models `NaN`. -/
def jsParseInt (s : List Char) : Option Int :=
  let s1 := s.dropWhile jsWhitespace
  let signed : Int × List Char :=
    match s1 with
    | '-' :: rest => (-1, rest)
    | '+' :: rest => (1, rest)
    | _ => (1, s1)
  let based : Nat × List Char :=
    match signed.2 with
    | '0' :: 'x' :: rest => (16, rest)
    | '0' :: 'X' :: rest => (16, rest)
    | _ => (10, signed.2)
  let digits := based.2.takeWhile fun c => (digitVal based.1 c).isSome
  if digits.isEmpty then none
  else some (signed.1 * digitsToNat based.1 digits)

/-- `timeStr.replace(/\s+[+-]\d{4}$/, "")` (epg-parser.ts 27): drop a
trailing timezone offset — exactly four digits preceded by a sign preceded
by at least one whitespace character, all at the end of the string. -/
def stripTz (s : List Char) : List Char :=
  match s.reverse with
  | d1 :: d2 :: d3 :: d4 :: sg :: w :: _ =>
    if d1.isDigit && d2.isDigit && d3.isDigit && d4.isDigit &&
        (sg = '+' || sg = '-') && jsWhitespace w then
      ((s.reverse.drop 5).dropWhile jsWhitespace).reverse
    else s
  | _ => s

/-- `str.substring(a, b)` for `a ≤ b` on a character list. -/
def jsSubstring (s : List Char) (a b : Nat) : List Char :=
  (s.drop a).take (b - a)

/-- The inner `parseTime` of `parseEPG` (epg-parser.ts 23-36): empty input
gives `new Date()` (= `now`); otherwise strip the timezone suffix and read
fixed-width local wall-clock fields, seconds defaulting to 0 (`|| 0`).  A
`NaN` field other than seconds makes the date invalid (`none`). -/
def parseTimeModel (now : Int) (timeStr : String) : Option Int :=
  if timeStr = "" then some now
  else
    let clean := stripTz timeStr.toList
    let year := jsParseInt (jsSubstring clean 0 4)
    let month := (jsParseInt (jsSubstring clean 4 6)).map fun m => m - 1
    let day := jsParseInt (jsSubstring clean 6 8)
    let hour := jsParseInt (jsSubstring clean 8 10)
    let minute := jsParseInt (jsSubstring clean 10 12)
    let second := (jsParseInt (jsSubstring clean 12 14)).getD 0
    match year, month, day, hour, minute with
    | some y, some mo, some d, some h, some mi => some (mkTimeMs y mo d h mi second)
    | _, _, _, _, _ => none

/-- `${start.getTime()}` in the synthesized id (`NaN` for an invalid date). -/
def jsTimeString (t : Option Int) : String :=
  match t with
  | some v => toString v
  | none => "NaN"

/-- The per-channel index type (`EPGData = Record<string, EPGProgram[]>`),
as an insertion-ordered association list. -/
abbrev EPGData := List (String × List EPGProgram)

/-- `epgData[channelId].push(entry)`, creating the bucket on first use
(epg-parser.ts 43-52). -/
def epgPush : EPGData → String → EPGProgram → EPGData
  | [], k, e => [(k, [e])]
  | (k', ps) :: rest, k, e =>
    if k' = k then (k', ps ++ [e]) :: rest
    else (k', ps) :: epgPush rest k e

/-- The `EPGProgram` built for one `<programme>` item (epg-parser.ts 38-52). -/
def mkEPGEntry (now : Int) (item : ProgrammeItem) : EPGProgram :=
  let start := parseTimeModel now item.start
  { id := item.channel ++ "-" ++ jsTimeString start
    title := item.title
    start := start
    endTime := parseTimeModel now item.stop }

/-- `epgData[key] || []`. -/
def lookupD (epg : EPGData) (k : String) : List EPGProgram :=
  (epg.lookup k).getD []

/-- `parseEPG` (epg-parser.ts 10-61) after DOM extraction: push every item
into its channel bucket in document order, then sort each channel's list
ascending by start (epg-parser.ts 56-58). -/
def parseEPGItems (now : Int) (items : List ProgrammeItem) : EPGData :=
  let data := items.foldl (fun d item => epgPush d item.channel (mkEPGEntry now item)) []
  data.map fun kv => (kv.1, kv.2.mergeSort sortLe)

theorem lookup_map_sort (key : String) :
    ∀ l : List (String × List EPGProgram),
      List.lookup key (l.map fun kv => (kv.1, kv.2.mergeSort sortLe)) =
        (List.lookup key l).map fun ps => ps.mergeSort sortLe := by
  intro l
  induction l with
  | nil => rfl
  | cons kv rest ih =>
    simp only [List.map_cons, List.lookup]
    by_cases h : key == kv.1
    · simp [h]
    · rw [Bool.not_eq_true] at h
      simp only [h]
      exact ih

theorem epgPush_mem {data : EPGData} {k key : String} {e p : EPGProgram} :
    p ∈ lookupD (epgPush data k e) key →
    p ∈ lookupD data key ∨ (k = key ∧ p = e) := by
  induction data with
  | nil =>
    intro h
    simp only [epgPush, lookupD, List.lookup] at h
    by_cases hk : key == k
    · simp only [hk, Option.getD_some] at h
      rw [List.mem_singleton] at h
      exact Or.inr ⟨(beq_iff_eq.mp hk).symm, h⟩
    · rw [Bool.not_eq_true] at hk
      simp [hk] at h
  | cons kv rest ih =>
    intro h
    obtain ⟨k', ps⟩ := kv
    simp only [epgPush] at h
    by_cases hkk : k' = k
    · rw [if_pos hkk] at h
      simp only [lookupD, List.lookup] at h ⊢
      by_cases hkey : key == k'
      · simp only [hkey, Option.getD_some] at h ⊢
        rcases List.mem_append.mp h with h1 | h2
        · exact Or.inl h1
        · rw [List.mem_singleton] at h2
          exact Or.inr ⟨hkk ▸ (beq_iff_eq.mp hkey).symm, h2⟩
      · rw [Bool.not_eq_true] at hkey
        simp only [hkey] at h ⊢
        exact Or.inl h
    · rw [if_neg hkk] at h
      simp only [lookupD, List.lookup] at h ⊢
      by_cases hkey : key == k'
      · simp only [hkey, Option.getD_some] at h ⊢
        exact Or.inl h
      · rw [Bool.not_eq_true] at hkey
        simp only [hkey] at h ⊢
        exact ih h

theorem epgFold_mem (now : Int) :
    ∀ (items : List ProgrammeItem) (data : EPGData) (key : String) (p : EPGProgram),
    p ∈ lookupD (items.foldl (fun d item => epgPush d item.channel (mkEPGEntry now item)) data)
        key →
    p ∈ lookupD data key ∨
      ∃ item ∈ items, item.channel = key ∧ p = mkEPGEntry now item := by
  intro items
  induction items with
  | nil => intro data key p h; exact Or.inl h
  | cons item rest ih =>
    intro data key p h
    rw [List.foldl_cons] at h
    rcases ih _ key p h with h1 | h2
    · rcases epgPush_mem h1 with h3 | ⟨hk, hp⟩
      · exact Or.inl h3
      · exact Or.inr ⟨item, List.mem_cons_self item rest, hk, hp⟩
    · obtain ⟨it, hit, hk, hp⟩ := h2
      exact Or.inr ⟨it, List.mem_cons_of_mem item hit, hk, hp⟩

/-- Counterexample to C8: a well-formed document whose `stop` encodes an
earlier time than its `start` yields a `ProgramEntry` whose end is not
strictly after its start — `parseEPG` performs no validation. -/
theorem parseEPG_end_before_start_cex :
    (lookupD (parseEPGItems 0 [⟨"c", "20240101120000", "20240101100000", "x"⟩]) "c").map
        (fun p => jsLt p.start p.endTime) = [false] ∧
    (lookupD (parseEPGItems 0 [⟨"c", "20240101120000", "20240101100000", "x"⟩]) "c").length
      = 1 := by
  constructor
  · show (List.map _ (lookupD (parseEPGItems 0 _) "c")) = [false]
    rw [show lookupD (parseEPGItems 0 [⟨"c", "20240101120000", "20240101100000", "x"⟩]) "c" =
        [mkEPGEntry 0 ⟨"c", "20240101120000", "20240101100000", "x"⟩] from by
      show ((List.lookup "c" _).getD []) = _
      rw [show (parseEPGItems 0 [⟨"c", "20240101120000", "20240101100000", "x"⟩]) =
          [("c", [mkEPGEntry 0 ⟨"c", "20240101120000", "20240101100000", "x"⟩].mergeSort
            sortLe)] from rfl]
      rw [List.mergeSort_singleton]
      rfl]
    decide
  · show (List.length (lookupD (parseEPGItems 0 _) "c")) = 1
    rw [show lookupD (parseEPGItems 0 [⟨"c", "20240101120000", "20240101100000", "x"⟩]) "c" =
        [mkEPGEntry 0 ⟨"c", "20240101120000", "20240101100000", "x"⟩] from by
      show ((List.lookup "c" _).getD []) = _
      rw [show (parseEPGItems 0 [⟨"c", "20240101120000", "20240101100000", "x"⟩]) =
          [("c", [mkEPGEntry 0 ⟨"c", "20240101120000", "20240101100000", "x"⟩].mergeSort
            sortLe)] from rfl]
      rw [List.mergeSort_singleton]
      rfl]
    rfl

/-- C8 (amended).  `parseEPG` copies the parsed `start` and `stop`
timestamps of each programme element through to the produced entry without
validation, so an entry's end is strictly after its start exactly when the
document's `stop` parses to a later instant than its `start` (and documents
with `stop ≤ start` yield entries violating the original claim). -/
theorem parseEPG_timestamps_passthrough (now : Int) (items : List ProgrammeItem)
    (key : String) (p : EPGProgram) (hp : p ∈ lookupD (parseEPGItems now items) key) :
    ∃ item ∈ items, item.channel = key ∧
      p.start = parseTimeModel now item.start ∧
      p.endTime = parseTimeModel now item.stop := by
  simp only [parseEPGItems, lookupD, lookup_map_sort] at hp
  rcases hl : List.lookup key
      (items.foldl (fun d item => epgPush d item.channel (mkEPGEntry now item)) []) with
    _ | ps
  · rw [hl] at hp; simp at hp
  · rw [hl] at hp
    simp only [Option.map_some', Option.getD_some, List.mem_mergeSort] at hp
    have hmem : p ∈ lookupD
        (items.foldl (fun d item => epgPush d item.channel (mkEPGEntry now item)) []) key := by
      simp only [lookupD, hl, Option.getD_some]
      exact hp
    rcases epgFold_mem now items [] key p hmem with h1 | h2
    · simp [lookupD, List.lookup] at h1
    · obtain ⟨item, hit, hk, rfl⟩ := h2
      exact ⟨item, hit, hk, rfl, rfl⟩

/-- Witness for the amended C8 at the counterexample document. -/
theorem parseEPG_timestamps_passthrough_witness :
    ∃ item ∈ [(⟨"c", "20240101120000", "20240101100000", "x"⟩ : ProgrammeItem)],
      item.channel = "c" ∧
      (mkEPGEntry 0 ⟨"c", "20240101120000", "20240101100000", "x"⟩).start =
        parseTimeModel 0 item.start ∧
      (mkEPGEntry 0 ⟨"c", "20240101120000", "20240101100000", "x"⟩).endTime =
        parseTimeModel 0 item.stop :=
  parseEPG_timestamps_passthrough 0 [⟨"c", "20240101120000", "20240101100000", "x"⟩] "c"
    (mkEPGEntry 0 ⟨"c", "20240101120000", "20240101100000", "x"⟩)
    (by
      rw [show lookupD (parseEPGItems 0 [⟨"c", "20240101120000", "20240101100000", "x"⟩]) "c" =
          [mkEPGEntry 0 ⟨"c", "20240101120000", "20240101100000", "x"⟩] from by
        show ((List.lookup "c" _).getD []) = _
        rw [show (parseEPGItems 0 [⟨"c", "20240101120000", "20240101100000", "x"⟩]) =
            [("c", [mkEPGEntry 0 ⟨"c", "20240101120000", "20240101100000", "x"⟩].mergeSort
              sortLe)] from rfl]
        rw [List.mergeSort_singleton]
        rfl]
      exact List.mem_singleton.mpr rfl)

/-! ## Channel-EPG resolver and current-program lookup (C4, C5)

`getEPGChannelId` and `getCurrentProgram` are exported by the repository's
`src/lib/epg-parser.ts` and used by App.tsx (184-185, 490-500), but the
copy of that file under `src/` lacks them; they are modelled from the
spec. -/

/-- `key` exists as a key of the index. -/
def hasEPGKey (epg : EPGData) (k : String) : Bool :=
  (epg.lookup k).isSome

/-- One fallback tier of the resolver: the candidate identity field, if
present and a key of the index. -/
def tryEPGKey (epg : EPGData) (k : Option String) : Option String :=
  match k with
  | some s => if hasEPGKey epg s then some s else none
  | none => none

/-- Modelled from the spec: `getEPGChannelId` (missing from src/; only its
callers in App.tsx are present) — "try the channel's source identifier
first, then its source display name, then its playlist display title;
return the first of these three that exists as a key in the index, or none
if none match." -/
def getEPGChannelId (channel : Channel) (epg : EPGData) : Option String :=
  match tryEPGKey epg channel.tvgId with
  | some k => some k
  | none =>
    match tryEPGKey epg channel.tvgName with
    | some k => some k
    | none => tryEPGKey epg (some channel.name)

/-- Modelled from the spec: `getCurrentProgram` (missing from src/) —
"linear search for the unique entry with `start <= absoluteTime < end`;
returns none if no entry covers the instant (must not throw)"; it matches
the in-src analogue `allPrograms.find(p => p.start <= now && p.end > now)`
(App.tsx 75-77). -/
def getCurrentProgram (epgChannelId : String) (epg : EPGData) (absoluteTime : Int) :
    Option EPGProgram :=
  (lookupD epg epgChannelId).find? fun p => inInterval p absoluteTime

/-- `currentVideoProgram` (App.tsx 490-500): resolve the channel's EPG key,
compute the absolute time as `streamStartTime + currentVideoTime * 1000`
(`currentVideoTime` is the elapsed playback time in seconds; no wall clock
is read), and look up the covering program. -/
def currentVideoProgram (channel : Channel) (epg : EPGData)
    (streamStartTime currentVideoTime : Int) : Option EPGProgram :=
  match getEPGChannelId channel epg with
  | none => none
  | some epgChannelId =>
    getCurrentProgram epgChannelId epg (streamStartTime + currentVideoTime * 1000)

/-- C4.  Current-program resolution: a successful lookup returns an entry of
the channel's list whose half-open interval covers `t`; a `none` result
means no entry of the list covers `t` (the lookup is total, hence never
throws); and the absolute time used for a live or catchup session is
`streamStartTime` plus elapsed playback milliseconds, not a wall clock. -/
theorem currentProgram_resolution (epg : EPGData) (key : String) (t : Int) :
    (∀ p, getCurrentProgram key epg t = some p →
      p ∈ lookupD epg key ∧ inInterval p t = true) ∧
    (getCurrentProgram key epg t = none →
      ∀ p ∈ lookupD epg key, inInterval p t = false) ∧
    (∀ (channel : Channel) (streamStartTime currentVideoTime : Int),
      getEPGChannelId channel epg = some key →
      currentVideoProgram channel epg streamStartTime currentVideoTime =
        getCurrentProgram key epg (streamStartTime + currentVideoTime * 1000)) := by
  refine ⟨?_, ?_, ?_⟩
  · intro q hq
    unfold getCurrentProgram at hq
    exact ⟨List.mem_of_find?_eq_some hq, by simpa using List.find?_some hq⟩
  · intro hnone p hp
    unfold getCurrentProgram at hnone
    have := List.find?_eq_none.mp hnone p hp
    simpa using this
  · intro channel streamStartTime currentVideoTime hkey
    unfold currentVideoProgram
    rw [hkey]

/-- Witness for C4 on a concrete one-entry index at `t = 5`. -/
theorem currentProgram_resolution_witness :
    (⟨"i", "T", some 0, some 10⟩ : EPGProgram) ∈
      lookupD [("k", [⟨"i", "T", some 0, some 10⟩])] "k" ∧
    inInterval (⟨"i", "T", some 0, some 10⟩ : EPGProgram) 5 = true :=
  (currentProgram_resolution [("k", [⟨"i", "T", some 0, some 10⟩])] "k" 5).1
    ⟨"i", "T", some 0, some 10⟩ (by decide)

/-- C5.  Resolver fallback order: the source identifier wins when it is a
key; otherwise the source display name when it is a key; otherwise the
playlist display title when it is a key; otherwise none.  (`tryEPGKey epg k
= none` states that tier `k` misses: the field is absent or not a key.) -/
theorem resolver_fallback (channel : Channel) (epg : EPGData) :
    (∀ t, channel.tvgId = some t → hasEPGKey epg t = true →
      getEPGChannelId channel epg = some t) ∧
    (∀ n, tryEPGKey epg channel.tvgId = none → channel.tvgName = some n →
      hasEPGKey epg n = true → getEPGChannelId channel epg = some n) ∧
    (tryEPGKey epg channel.tvgId = none → tryEPGKey epg channel.tvgName = none →
      hasEPGKey epg channel.name = true →
      getEPGChannelId channel epg = some channel.name) ∧
    (tryEPGKey epg channel.tvgId = none → tryEPGKey epg channel.tvgName = none →
      hasEPGKey epg channel.name = false →
      getEPGChannelId channel epg = none) := by
  refine ⟨?_, ?_, ?_, ?_⟩
  · intro t ht hk
    have h : tryEPGKey epg channel.tvgId = some t := by simp [tryEPGKey, ht, hk]
    unfold getEPGChannelId
    rw [h]
  · intro n h1 hn hk
    have h : tryEPGKey epg channel.tvgName = some n := by simp [tryEPGKey, hn, hk]
    unfold getEPGChannelId
    rw [h1, h]
  · intro h1 h2 hk
    have h : tryEPGKey epg (some channel.name) = some channel.name := by
      simp [tryEPGKey, hk]
    unfold getEPGChannelId
    rw [h1, h2, h]
  · intro h1 h2 hk
    have h : tryEPGKey epg (some channel.name) = none := by simp [tryEPGKey, hk]
    unfold getEPGChannelId
    rw [h1, h2, h]

/-- Witness for C5: the three fallback tiers are each reachable, and a
channel matching no tier resolves to none (the spec's own examples, over the
index with keys `b` and `c`). -/
theorem resolver_fallback_witness :
    getEPGChannelId ⟨"x", "n1", "g", "u", none, some "b", none, none, none⟩
      [("b", []), ("c", [])] = some "b" ∧
    getEPGChannelId ⟨"x", "n2", "g", "u", none, some "a", some "b", none, none⟩
      [("b", []), ("c", [])] = some "b" ∧
    getEPGChannelId ⟨"x", "c", "g", "u", none, none, none, none, none⟩
      [("b", []), ("c", [])] = some "c" ∧
    getEPGChannelId ⟨"x", "z", "g", "u", none, none, none, none, none⟩
      [("b", []), ("c", [])] = none :=
  ⟨(resolver_fallback ⟨"x", "n1", "g", "u", none, some "b", none, none, none⟩
      [("b", []), ("c", [])]).1 "b" rfl (by decide),
   (resolver_fallback ⟨"x", "n2", "g", "u", none, some "a", some "b", none, none⟩
      [("b", []), ("c", [])]).2.1 "b" (by decide) rfl (by decide),
   (resolver_fallback ⟨"x", "c", "g", "u", none, none, none, none, none⟩
      [("b", []), ("c", [])]).2.2.1 (by decide) (by decide) (by decide),
   (resolver_fallback ⟨"x", "z", "g", "u", none, none, none, none, none⟩
      [("b", []), ("c", [])]).2.2.2 (by decide) (by decide) (by decide)⟩

end RtpPlayer
